import Mathlib

/-!
Verification development for the `nonlinear-mor` repository.

Shallow embedding of the parts of the code that the claims refer to:

* `src/nonlinear_mor/utils/parameters.py` (`CubicParameterSpace.sample`),
* `src/nonlinear_mor/reductors/neural_network.py`
  (`NonlinearNeuralNetworkReductor`: `register_full_solutions`, `reduce`,
  normalization helpers, `multiple_restarts_training`).

Machine floating-point values are embedded as rationals (`ℚ`); external
collaborators (the full-order solver, the geodesic-shooting registration
oracle, the `pod` utility and the trained networks) appear as abstract
function parameters, exactly in the places where the code calls them.
-/

namespace NonlinearMor

/-! ### `CubicParameterSpace.sample` (src/nonlinear_mor/utils/parameters.py, lines 19-32) -/

/-- Linear search for the least `j ≥ k` with `n ≤ j ^ d`, with explicit fuel so
that the definition is structurally recursive and kernel-evaluable. -/
def leastRootAux (n d : ℕ) : ℕ → ℕ → ℕ
  | 0, k => k
  | fuel + 1, k => if n ≤ k ^ d then k else leastRootAux n d fuel (k + 1)

/-- `int(np.ceil(num_samples ** (1 / dim)))` with the exact real `dim`-th root
(the floating-point power is idealized as the exact root): the least `k` with
`n ≤ k ^ d`.  The equality with `⌈(n : ℝ) ^ (1 / d)⌉` is proved below. -/
def numPerDim (n d : ℕ) : ℕ := leastRootAux n d (n + 1) 0

/-- `np.linspace(a, b, m)`: `m` points spaced linearly from `a` to `b`,
endpoints included; for `m = 1` numpy returns `[a]`. -/
def linspace (a b : ℚ) (m : ℕ) : List ℚ :=
  if m = 1 then [a]
  else (List.range m).map (fun (i : ℕ) => a + (i : ℚ) * (b - a) / ((m : ℚ) - 1))

/-- The full Cartesian product produced by
`np.stack([t.T for t in np.meshgrid(*linspace_list)], axis=-1).reshape(-1, dim)`:
all choices of one grid point per dimension, first dimension slowest. -/
def cartesianProduct : List (List ℚ) → List (List ℚ)
  | [] => [[]]
  | l :: ls => l.flatMap (fun x => (cartesianProduct ls).map (fun p => x :: p))

/-- `CubicParameterSpace.sample(num_samples, mode)` up to the final `.squeeze()`
(numpy axis squeezing has no counterpart on `List (List ℚ)`; it is modelled at
the shape level by `squeezeShape`/`sample_result_shape` below).  The two
`assert` statements at the head of the method are modelled as `Except.error`. -/
def sample (extents : List (ℚ × ℚ)) (num_samples : ℕ) (mode : String) :
    Except String (List (List ℚ)) :=
  if ¬ (mode ∈ ["uniform"]) then Except.error "AssertionError: mode"
  else if num_samples < 1 then Except.error "AssertionError: num_samples"
  else Except.ok (cartesianProduct
    (extents.map (fun p => linspace p.1 p.2 (numPerDim num_samples extents.length))))

/-- `np.squeeze` on an array shape: every axis of extent `1` is removed. -/
def squeezeShape (shape : List ℕ) : List ℕ := shape.filter (fun d => d != 1)

/-- The numpy shape of the value returned by `sample`: the pre-squeeze shape is
`(count, dim)` with `count = numPerDim(num_samples, dim) ^ dim` (asserted at
line 30 of parameters.py), and line 32 returns `parameters.squeeze()`. -/
def sample_result_shape (dim num_samples : ℕ) : List ℕ :=
  squeezeShape [numPerDim num_samples dim ^ dim, dim]

/-! ### Reduced coefficients (neural_network.py, lines 105-114) -/

/-- Euclidean dot product of two flattened fields. -/
def dot (xs ys : List ℚ) : ℚ := (List.zipWith (· * ·) xs ys).sum

/-- Matrix-vector product, matrix given by its rows. -/
def matVec (M : List (List ℚ)) (v : List ℚ) : List ℚ := M.map (fun row => dot row v)

/-- Lines 113-114:
`snapshot_matrix = np.stack([a.to_numpy().flatten() for a in full_velocity_fields])`
`reduced_coefficients = snapshot_matrix.dot(reduced_velocity_fields.T)` —
entry `(i, j)` is the plain Euclidean dot product of flattened snapshot `i`
with basis row `j`. -/
def reduced_coefficients (snapshot_matrix basis : List (List ℚ)) : List (List ℚ) :=
  snapshot_matrix.map (fun v => basis.map (fun b => dot v b))

/-- Modelled from the spec: the coefficient projection "under the same inner
product used for the decomposition (the Cauchy-Navier product operator passed
to pod)".  The Cauchy-Navier operator lives in the external `geodesic_shooting`
package and is modelled as an arbitrary operator matrix `L`, so the projection
of snapshot `v` on basis vector `b` is `⟨v, L b⟩`. -/
def cauchyNavierProjection (snapshot_matrix basis : List (List ℚ)) (L : List (List ℚ)) :
    List (List ℚ) :=
  snapshot_matrix.map (fun v => basis.map (fun b => dot v (matVec L b)))

/-- The identity operator on coordinate vectors of length `n`. -/
def identityMatrix (n : ℕ) : List (List ℚ) :=
  (List.range n).map (fun i => (List.range n).map (fun j => if i = j then (1 : ℚ) else 0))

/-! ### Normalization (neural_network.py, lines 145-163) -/

/-- The four instance attributes set by `compute_normalization`. -/
structure NormalizationStats where
  min_input : ℚ
  max_input : ℚ
  min_output : ℚ
  max_output : ℚ
deriving DecidableEq, Repr

/-- `compute_normalization(training_data, validation_data)` (lines 145-149):
min/max of all inputs and of all entries of all output vectors over
`training_data + validation_data`.  `np.min`/`np.max` of an empty collection
raise, modelled as `none`. -/
def compute_normalization (training_data validation_data : List (ℚ × List ℚ)) :
    Option NormalizationStats :=
  match ((training_data ++ validation_data).map Prod.fst),
        (((training_data ++ validation_data).map Prod.snd).flatten) with
  | i :: is, o :: os =>
    some { min_input := is.foldl min i, max_input := is.foldl max i,
           min_output := os.foldl min o, max_output := os.foldl max o }
  | _, _ => none

/-- Line 157: `(data - self.min_input) / (self.max_input - self.min_input)`. -/
def normalize_input (s : NormalizationStats) (x : ℚ) : ℚ :=
  (x - s.min_input) / (s.max_input - s.min_input)

/-- Line 160: `(data - self.min_output) / (self.max_output - self.min_output)`. -/
def normalize_output (s : NormalizationStats) (x : ℚ) : ℚ :=
  (x - s.min_output) / (s.max_output - s.min_output)

/-- Line 163: `data * (self.max_output - self.min_output) + self.min_output`. -/
def denormalize_output (s : NormalizationStats) (x : ℚ) : ℚ :=
  x * (s.max_output - s.min_output) + s.min_output

/-! ### Validation split (neural_network.py, lines 119-121)

`int(0.1 * len(l))` is embedded as `l.length / 10` (natural floor division),
which is the exact value of the Python expression for every list length below
`10 ^ 15`. -/

/-- Line 120: `validation_data = training_data[:int(0.1 * len(training_data)) + 1]`. -/
def validation_split {α : Type} (l : List α) : List α := l.take (l.length / 10 + 1)

/-- Line 121: `training_data = training_data[int(0.1 * len(training_data)) + 2:]`
(`training_data` on the right-hand side is still the full shuffled list). -/
def training_split {α : Type} (l : List α) : List α := l.drop (l.length / 10 + 2)

/-! ### Training data and network shape (neural_network.py, lines 116-127) -/

/-- Line 117-118: `[(torch.Tensor([mu, ]), torch.Tensor(coeff)) for (mu, _), coeff
in zip(full_solutions, reduced_coefficients)]`; the input tensor is the
one-element list `[mu]` whatever the parameter type `P` is. -/
def build_training_data {P S : Type} (full_solutions : List (P × S))
    (coeffs : List (List ℚ)) : List (List P × List ℚ) :=
  (full_solutions.zip coeffs).map (fun pc => ([pc.1.1], pc.2))

/-- Line 127: `layers_sizes = [1] + hidden_layers + [reduced_coefficients.shape[1]]`. -/
def layers_sizes (hidden_layers : List ℕ) (output_dim : ℕ) : List ℕ :=
  [1] ++ hidden_layers ++ [output_dim]

/-! ### `multiple_restarts_training` (neural_network.py, lines 165-181)

Each restart's call of `train_neural_network` either returns a
`(network, loss)` pair or raises; the list `outcomes` holds one entry per
restart.  The Python loop body has no exception handler, so a raised exception
propagates (`Except.error`).  `N` is the opaque type of trained networks. -/

/-- The `for _ in range(restarts)` loop with its `best_neural_network` /
`best_loss` accumulators (`if best_loss is None or best_loss > loss`). -/
def restartsLoop {N : Type} :
    List (Except String (N × ℚ)) → Option N → Option ℚ →
      Except String (Option N × Option ℚ)
  | [], bestN, bestL => Except.ok (bestN, bestL)
  | Except.error e :: _, _, _ => Except.error e
  | Except.ok (net, loss) :: rest, bestN, bestL =>
    match bestL with
    | none => restartsLoop rest (some net) (some loss)
    | some l =>
      if l > loss then restartsLoop rest (some net) (some loss)
      else restartsLoop rest bestN bestL

/-- `multiple_restarts_training`, returning `(best_neural_network, best_loss)`. -/
def multiple_restarts_training {N : Type} (outcomes : List (Except String (N × ℚ))) :
    Except String (Option N × Option ℚ) :=
  restartsLoop outcomes none none

/-! ### `register_full_solutions` (neural_network.py, lines 59-88)

`reg initial sol` stands for
`perform_single_registration(sol, initial_velocity_field=initial, ...)`;
the registration oracle is external and appears as a function parameter. -/

/-- The sequential branch (lines 76-87): iterate over the solutions, the
initial guess being the last appended velocity field when
`reuse_vector_fields and i > 0` (for `i = 0` the accumulator is empty and
`getLast?` is `none`, exactly the code's `initial_velocity_field = None`). -/
def seqRegister {V α : Type} (reg : Option V → α → V) (reuse : Bool) :
    List α → List V → List V
  | [], acc => acc
  | s :: rest, acc =>
    seqRegister reg reuse rest (acc ++ [reg (if reuse then acc.getLast? else none) s])

/-- `register_full_solutions` without a cache file: the parallel branch
(lines 67-75) maps the registration with `initial_velocity_field=None` over all
solutions; otherwise the sequential loop runs. -/
def register_full_solutions {V α : Type} (reg : Option V → α → V)
    (numWorkers : ℕ) (reuse : Bool) (sols : List α) : List V :=
  if 1 < numWorkers then sols.map (reg none) else seqRegister reg reuse sols []

/-- Specification-level recursion for the warm-started sequential chain:
each registration sees the previous result as its initial guess. -/
def warmStartChain {V α : Type} (reg : Option V → α → V) : Option V → List α → List V
  | _, [] => []
  | prev, s :: rest => reg prev s :: warmStartChain reg (some (reg prev s)) rest

/-! ### `reduce` (neural_network.py, lines 90-114)

The head of `reduce` through the computation of the reduced coefficients: the
two `assert` statements (lines 93-94) run first, then the full solutions are
computed with the full-order solver `fomSolve`, then registration, then `pod`
(external, abstracted as `podOracle`), then the coefficient projection. -/

def reduce {S V : Type} (fomSolve : ℚ → S) (reg : Option V → ℚ × S → V)
    (podOracle : List V → ℕ → List (List ℚ)) (flatten : V → List ℚ)
    (training_set : List ℚ) (max_basis_size restarts : ℤ)
    (numWorkers : ℕ) (reuse : Bool) : Except String (List (List ℚ)) :=
  if ¬ (0 < max_basis_size) then Except.error "AssertionError: max_basis_size"
  else if ¬ (0 < restarts) then Except.error "AssertionError: restarts"
  else
    let full_solutions := training_set.map (fun mu => (mu, fomSolve mu))
    let full_velocity_fields := register_full_solutions reg numWorkers reuse full_solutions
    let basis := podOracle full_velocity_fields max_basis_size.toNat
    Except.ok (reduced_coefficients (full_velocity_fields.map flatten) basis)

/-! ## Helper lemmas -/

theorem dot_nil_left (ys : List ℚ) : dot [] ys = 0 := rfl

theorem dot_cons (x y : ℚ) (xs ys : List ℚ) :
    dot (x :: xs) (y :: ys) = x * y + dot xs ys := rfl

theorem dot_replicate_zero : ∀ (n : ℕ) (ys : List ℚ), dot (List.replicate n 0) ys = 0 := by
  intro n
  induction n with
  | zero => intro ys; rfl
  | succ n ih =>
    intro ys
    cases ys with
    | nil => rfl
    | cons y ys => rw [List.replicate_succ, dot_cons, ih, zero_mul, add_zero]

theorem dot_indicator : ∀ (b : List ℚ) (i : ℕ) (hi : i < b.length),
    dot ((List.range b.length).map fun j => if i = j then (1 : ℚ) else 0) b = b.get ⟨i, hi⟩ := by
  intro b
  induction b with
  | nil => intro i hi; simp at hi
  | cons x xs ih =>
    intro i hi
    have hrange : List.range (x :: xs).length = 0 :: (List.range xs.length).map Nat.succ := by
      rw [List.length_cons, List.range_succ_eq_map]
    rw [hrange, List.map_cons, List.map_map]
    cases i with
    | zero =>
      have hrow : (List.range xs.length).map ((fun j => if 0 = j then (1 : ℚ) else 0) ∘ Nat.succ)
          = List.replicate xs.length 0 := by
        rw [show ((fun j => if 0 = j then (1 : ℚ) else 0) ∘ Nat.succ) = fun _ => (0 : ℚ) by
          funext j; simp]
        rw [List.map_const']
        simp
      rw [hrow]
      simp [dot_cons, dot_replicate_zero]
    | succ i =>
      have hrow : (List.range xs.length).map ((fun j => if i + 1 = j then (1 : ℚ) else 0) ∘ Nat.succ)
          = (List.range xs.length).map fun j => if i = j then (1 : ℚ) else 0 := by
        apply List.map_congr_left
        intro j _
        simp [Function.comp, Nat.succ_eq_add_one]
      rw [hrow, dot_cons]
      have hi' : i < xs.length := by simpa using hi
      rw [ih i hi']
      simp

theorem matVec_identity (b : List ℚ) : matVec (identityMatrix b.length) b = b := by
  apply List.ext_getElem
  · simp [matVec, identityMatrix]
  · intro i h1 h2
    simp only [matVec, identityMatrix, List.map_map, List.getElem_map, List.getElem_range,
      Function.comp_def]
    rw [← List.get_eq_getElem b ⟨i, h2⟩]
    exact dot_indicator b i h2

theorem restartsLoop_error {N : Type} (e : String) :
    ∀ (pre : List (N × ℚ)) (rest : List (Except String (N × ℚ)))
      (bestN : Option N) (bestL : Option ℚ),
      restartsLoop (pre.map Except.ok ++ Except.error e :: rest) bestN bestL =
        Except.error e := by
  intro pre
  induction pre with
  | nil => intro rest bestN bestL; rfl
  | cons p pre ih =>
    intro rest bestN bestL
    rw [List.map_cons, List.cons_append]
    rcases p with ⟨net, loss⟩
    cases bestL with
    | none => exact ih rest (some net) (some loss)
    | some l =>
      rw [restartsLoop]
      split
      · exact ih rest (some net) (some loss)
      · exact ih rest bestN (some l)

theorem restartsLoop_ok_spec {N : Type} :
    ∀ (pairs : List (N × ℚ)) (n₀ : N) (l₀ : ℚ),
      ∃ n l, restartsLoop (pairs.map Except.ok) (some n₀) (some l₀) =
          Except.ok (some n, some l) ∧
        (n, l) ∈ (n₀, l₀) :: pairs ∧ l ≤ l₀ ∧ ∀ p ∈ pairs, l ≤ p.2 := by
  intro pairs
  induction pairs with
  | nil =>
    intro n₀ l₀
    exact ⟨n₀, l₀, rfl, List.mem_cons_self _ _, le_rfl, by simp⟩
  | cons p rest ih =>
    intro n₀ l₀
    rcases p with ⟨m, s⟩
    rw [List.map_cons, restartsLoop]
    split
    · rename_i hls
      obtain ⟨n, l, heq, hmem, hle, hall⟩ := ih m s
      refine ⟨n, l, heq, ?_, ?_, ?_⟩
      · rcases List.mem_cons.mp hmem with h | h
        · exact List.mem_cons.mpr (Or.inr (List.mem_cons.mpr (Or.inl h)))
        · exact List.mem_cons.mpr (Or.inr (List.mem_cons.mpr (Or.inr h)))
      · linarith
      · intro q hq
        rcases List.mem_cons.mp hq with h | h
        · rw [h]
          exact hle
        · exact hall q h
    · rename_i hls
      push_neg at hls
      obtain ⟨n, l, heq, hmem, hle, hall⟩ := ih n₀ l₀
      refine ⟨n, l, heq, ?_, hle, ?_⟩
      · rcases List.mem_cons.mp hmem with h | h
        · exact List.mem_cons.mpr (Or.inl h)
        · exact List.mem_cons.mpr (Or.inr (List.mem_cons.mpr (Or.inr h)))
      · intro q hq
        rcases List.mem_cons.mp hq with h | h
        · rw [h]
          linarith
        · exact hall q h

theorem seqRegister_false {V α : Type} (reg : Option V → α → V) :
    ∀ (sols : List α) (acc : List V),
      seqRegister reg false sols acc = acc ++ sols.map (reg none) := by
  intro sols
  induction sols with
  | nil => intro acc; simp [seqRegister]
  | cons s rest ih =>
    intro acc
    rw [seqRegister, ih]
    simp

theorem seqRegister_true {V α : Type} (reg : Option V → α → V) :
    ∀ (sols : List α) (acc : List V),
      seqRegister reg true sols acc = acc ++ warmStartChain reg acc.getLast? sols := by
  intro sols
  induction sols with
  | nil => intro acc; simp [seqRegister, warmStartChain]
  | cons s rest ih =>
    intro acc
    rw [seqRegister, ih, warmStartChain]
    simp [List.getLast?_concat]

theorem warmStartChain_length {V α : Type} (reg : Option V → α → V) :
    ∀ (sols : List α) (prev : Option V),
      (warmStartChain reg prev sols).length = sols.length := by
  intro sols
  induction sols with
  | nil => intro prev; rfl
  | cons s rest ih => intro prev; rw [warmStartChain]; simp [ih]

theorem warmStartChain_getElem {V α : Type} (reg : Option V → α → V) :
    ∀ (sols : List α) (prev : Option V) (k : ℕ),
      (warmStartChain reg prev sols)[k]? =
        (sols[k]?).map (reg (if k = 0 then prev
          else (warmStartChain reg prev sols)[k - 1]?)) := by
  intro sols
  induction sols with
  | nil => intro prev k; simp [warmStartChain]
  | cons s rest ih =>
    intro prev k
    rw [warmStartChain]
    cases k with
    | zero => simp
    | succ j =>
      rw [List.getElem?_cons_succ, List.getElem?_cons_succ, ih (some (reg prev s)) j]
      have hshift : (reg prev s :: warmStartChain reg (some (reg prev s)) rest)[j + 1 - 1]? =
          if j = 0 then some (reg prev s)
          else (warmStartChain reg (some (reg prev s)) rest)[j - 1]? := by
        cases j with
        | zero => simp
        | succ i => simp
      rw [hshift]
      simp

theorem leastRootAux_spec (n d : ℕ) :
    ∀ (fuel k : ℕ), n ≤ (k + fuel) ^ d → (∀ j, j < k → j ^ d < n) →
      n ≤ (leastRootAux n d fuel k) ^ d ∧
        ∀ j, j < leastRootAux n d fuel k → j ^ d < n := by
  intro fuel
  induction fuel with
  | zero =>
    intro k h hb
    exact ⟨by simpa using h, hb⟩
  | succ fuel ih =>
    intro k h hb
    rw [leastRootAux]
    by_cases hk : n ≤ k ^ d
    · refine ⟨by simp [hk], ?_⟩
      simpa [hk] using hb
    · have h' : n ≤ (k + 1 + fuel) ^ d := by
        have : k + 1 + fuel = k + (fuel + 1) := by omega
        rwa [this]
      have hb' : ∀ j, j < k + 1 → j ^ d < n := by
        intro j hj
        rcases Nat.lt_or_ge j k with hjk | hjk
        · exact hb j hjk
        · have : j = k := by omega
          subst this
          omega
      simpa [hk] using ih (k + 1) h' hb'

theorem numPerDim_spec (n d : ℕ) (hd : 1 ≤ d) :
    n ≤ numPerDim n d ^ d ∧ ∀ j, j < numPerDim n d → j ^ d < n := by
  have h0 : n ≤ (0 + (n + 1)) ^ d := by
    have h1 : n + 1 ≤ (n + 1) ^ d := Nat.le_self_pow (by omega) _
    calc n ≤ n + 1 := Nat.le_succ n
    _ ≤ (n + 1) ^ d := h1
    _ = (0 + (n + 1)) ^ d := by rw [Nat.zero_add]
  exact leastRootAux_spec n d (n + 1) 0 h0 (by omega)

theorem numPerDim_eq_of (n d m : ℕ) (hd : 1 ≤ d)
    (h1 : n ≤ m ^ d) (h2 : ∀ j, j < m → j ^ d < n) : numPerDim n d = m := by
  obtain ⟨hA, hB⟩ := numPerDim_spec n d hd
  rcases Nat.lt_trichotomy (numPerDim n d) m with h | h | h
  · have := h2 _ h
    omega
  · exact h
  · have := hB _ h
    omega

theorem numPerDim_one (d : ℕ) (hd : 1 ≤ d) : numPerDim 1 d = 1 := by
  refine numPerDim_eq_of 1 d 1 hd (by simp) ?_
  intro j hj
  have : j = 0 := by omega
  subst this
  rw [zero_pow (show d ≠ 0 by omega)]
  omega

theorem root_le_nat_iff (n d k : ℕ) (hd : 1 ≤ d) :
    (n : ℝ) ^ ((1 : ℝ) / (d : ℝ)) ≤ (k : ℝ) ↔ n ≤ k ^ d := by
  have hdR : ((d : ℝ)) ≠ 0 := by positivity
  have hnR : (0 : ℝ) ≤ (n : ℝ) := by positivity
  constructor
  · intro h
    have hr : (0 : ℝ) ≤ (n : ℝ) ^ ((1 : ℝ) / (d : ℝ)) := Real.rpow_nonneg hnR _
    have hpow := pow_le_pow_left₀ hr h d
    rw [← Real.rpow_natCast ((n : ℝ) ^ ((1 : ℝ) / (d : ℝ))) d, ← Real.rpow_mul hnR,
      one_div, inv_mul_cancel₀ hdR, Real.rpow_one] at hpow
    exact_mod_cast hpow
  · intro h
    have h' : (n : ℝ) ≤ ((k : ℝ)) ^ d := by exact_mod_cast h
    have := Real.rpow_le_rpow hnR h' (by positivity : (0 : ℝ) ≤ 1 / (d : ℝ))
    rwa [← Real.rpow_natCast (k : ℝ) d, ← Real.rpow_mul (by positivity),
      mul_one_div, div_self hdR, Real.rpow_one] at this

theorem numPerDim_eq_ceil (n d : ℕ) (hn : 1 ≤ n) (hd : 1 ≤ d) :
    (numPerDim n d : ℤ) = ⌈(n : ℝ) ^ ((1 : ℝ) / (d : ℝ))⌉ := by
  obtain ⟨h1, h2⟩ := numPerDim_spec n d hd
  have hr0 : (0 : ℝ) ≤ (n : ℝ) ^ ((1 : ℝ) / (d : ℝ)) := Real.rpow_nonneg (by positivity) _
  refine le_antisymm ?_ ?_
  · by_contra hlt
    push_neg at hlt
    set j := (⌈(n : ℝ) ^ ((1 : ℝ) / (d : ℝ))⌉).toNat with hj
    have hcnn : (0 : ℤ) ≤ ⌈(n : ℝ) ^ ((1 : ℝ) / (d : ℝ))⌉ := Int.ceil_nonneg hr0
    have hjm : j < numPerDim n d := by
      have := Int.toNat_of_nonneg hcnn
      omega
    have hle : (n : ℝ) ^ ((1 : ℝ) / (d : ℝ)) ≤ (j : ℝ) := by
      have h1' := Int.le_ceil ((n : ℝ) ^ ((1 : ℝ) / (d : ℝ)))
      have h2' : ((⌈(n : ℝ) ^ ((1 : ℝ) / (d : ℝ))⌉ : ℤ) : ℝ) = (j : ℝ) := by
        rw [hj]
        exact_mod_cast (Int.toNat_of_nonneg hcnn).symm
      linarith
    have := (root_le_nat_iff n d j hd).mp hle
    have := h2 j hjm
    omega
  · exact Int.ceil_le.mpr ((root_le_nat_iff n d (numPerDim n d) hd).mpr h1)

theorem cartesianProduct_length (ls : List (List ℚ)) :
    (cartesianProduct ls).length = (ls.map List.length).prod := by
  induction ls with
  | nil => rfl
  | cons l ls ih =>
    simp only [cartesianProduct, List.length_flatMap, Function.comp_def, List.length_map,
      List.map_const', List.sum_replicate, smul_eq_mul, List.map_cons, List.prod_cons, ih]

theorem mem_cartesianProduct {p : List ℚ} : ∀ {ls : List (List ℚ)},
    p ∈ cartesianProduct ls ↔ List.Forall₂ (fun x l => x ∈ l) p ls := by
  intro ls
  induction ls generalizing p with
  | nil =>
    simp [cartesianProduct, List.forall₂_nil_right_iff]
  | cons l ls ih =>
    simp only [cartesianProduct, List.mem_flatMap, List.mem_map,
      List.forall₂_cons_right_iff]
    constructor
    · rintro ⟨x, hx, q, hq, rfl⟩
      exact ⟨x, q, hx, ih.mp hq, rfl⟩
    · rintro ⟨x, q, hx, hq, rfl⟩
      exact ⟨x, hx, q, ih.mpr hq, rfl⟩

theorem linspace_length (a b : ℚ) (m : ℕ) : (linspace a b m).length = m := by
  unfold linspace
  split
  · simp [*]
  · simp

theorem linspace_mem_bounds {a b q : ℚ} {m : ℕ} (hab : a ≤ b)
    (hq : q ∈ linspace a b m) : a ≤ q ∧ q ≤ b := by
  unfold linspace at hq
  split at hq
  · rcases List.mem_singleton.mp hq with rfl
    exact ⟨le_rfl, hab⟩
  · rename_i hm1
    rcases List.mem_map.mp hq with ⟨i, hi, rfl⟩
    have him : i < m := List.mem_range.mp hi
    have hm2 : 2 ≤ m := by omega
    have hmQ : (0 : ℚ) < (m : ℚ) - 1 := by
      have : (2 : ℚ) ≤ (m : ℚ) := by exact_mod_cast hm2
      linarith
    have hiQ : (i : ℚ) ≤ (m : ℚ) - 1 := by
      have : (i : ℚ) + 1 ≤ (m : ℚ) := by exact_mod_cast him
      linarith
    have hstep : 0 ≤ (i : ℚ) * (b - a) / ((m : ℚ) - 1) :=
      div_nonneg (mul_nonneg (by positivity) (by linarith)) (le_of_lt hmQ)
    refine ⟨by linarith, ?_⟩
    have hnum : (i : ℚ) * (b - a) ≤ ((m : ℚ) - 1) * (b - a) :=
      mul_le_mul_of_nonneg_right hiQ (by linarith)
    have : (i : ℚ) * (b - a) / ((m : ℚ) - 1) ≤ b - a := by
      rw [div_le_iff₀ hmQ]
      linarith
    linarith

theorem forall₂_linspace_bounds {m : ℕ} : ∀ (p : List ℚ) (ext : List (ℚ × ℚ)),
    (∀ pr ∈ ext, pr.1 ≤ pr.2) →
    List.Forall₂ (fun x pr => x ∈ linspace pr.1 pr.2 m) p ext →
    List.Forall₂ (fun (x : ℚ) (pr : ℚ × ℚ) => pr.1 ≤ x ∧ x ≤ pr.2) p ext := by
  intro p ext hext h
  revert hext
  induction h with
  | nil => intro _; exact List.Forall₂.nil
  | @cons x pr p' ext' hxpr htail ih =>
    intro hext
    exact List.Forall₂.cons
      (linspace_mem_bounds (hext pr (List.mem_cons_self pr ext')) hxpr)
      (ih (fun q hq => hext q (List.mem_cons_of_mem pr hq)))

/-! ## Claim C4 -/

/-- Claim C4: for every valid extents list of dimension `d ≥ 1` and every
`n ≥ 1`, `sample(n, "uniform")` succeeds and returns exactly
`ceil(n^(1/d))^d` points, where the per-dimension count equals the ceiling of
the exact real `d`-th root of `n`; the number of points is at least `n`, and
every coordinate of every point lies within the corresponding
`[min_i, max_i]` interval (inclusive). -/
theorem C4_uniform_sampling (extents : List (ℚ × ℚ)) (n : ℕ)
    (hd : 1 ≤ extents.length) (hn : 1 ≤ n)
    (hext : ∀ pr ∈ extents, pr.1 ≤ pr.2) :
    ∃ ps, sample extents n "uniform" = Except.ok ps ∧
      ps.length = numPerDim n extents.length ^ extents.length ∧
      (numPerDim n extents.length : ℤ) = ⌈(n : ℝ) ^ ((1 : ℝ) / (extents.length : ℝ))⌉ ∧
      n ≤ ps.length ∧
      ∀ p ∈ ps, List.Forall₂ (fun (x : ℚ) (pr : ℚ × ℚ) => pr.1 ≤ x ∧ x ≤ pr.2) p extents := by
  have hsample : sample extents n "uniform" = Except.ok (cartesianProduct
      (extents.map (fun pr => linspace pr.1 pr.2 (numPerDim n extents.length)))) := by
    unfold sample
    rw [if_neg (by simp), if_neg (by omega)]
  have hlen : (cartesianProduct
      (extents.map (fun pr => linspace pr.1 pr.2 (numPerDim n extents.length)))).length =
      numPerDim n extents.length ^ extents.length := by
    rw [cartesianProduct_length, List.map_map]
    rw [show (List.length ∘ fun pr : ℚ × ℚ => linspace pr.1 pr.2 (numPerDim n extents.length))
        = fun _ => numPerDim n extents.length from funext fun pr => linspace_length _ _ _]
    rw [List.map_const', List.prod_replicate]
  refine ⟨_, hsample, hlen, numPerDim_eq_ceil n extents.length hn hd, ?_, ?_⟩
  · rw [hlen]
    exact (numPerDim_spec n extents.length hd).1
  · intro p hp
    exact forall₂_linspace_bounds p extents hext
      ((List.forall₂_map_right_iff).mp (mem_cartesianProduct.mp hp))

/-- Witness for C4_uniform_sampling: one dimension, extents `[0, 1]`, three
requested samples. -/
theorem C4_witness :
    ∃ ps, sample [((0 : ℚ), 1)] 3 "uniform" = Except.ok ps ∧
      ps.length = numPerDim 3 [((0 : ℚ), 1)].length ^ [((0 : ℚ), 1)].length ∧
      (numPerDim 3 [((0 : ℚ), 1)].length : ℤ) =
        ⌈((3 : ℕ) : ℝ) ^ ((1 : ℝ) / (([((0 : ℚ), 1)].length : ℕ) : ℝ))⌉ ∧
      3 ≤ ps.length ∧
      ∀ p ∈ ps, List.Forall₂ (fun (x : ℚ) (pr : ℚ × ℚ) => pr.1 ≤ x ∧ x ≤ pr.2) p
        [((0 : ℚ), 1)] :=
  C4_uniform_sampling [((0 : ℚ), 1)] 3 (by decide) (by decide) (by decide)

/-! ## Claim C10 -/

/-- Claim C10: `sample` unconditionally squeezes its result, so for
`num_samples = 1` the pre-squeeze array holds a single point (shape
`(1, dim)`), and the squeezed result is a 0-dimensional value (shape `[]`)
when `dim = 1` and a `(dim,)`-shaped array when `dim > 1` — not a length-1
sequence and not a `(1, dim)`-shaped array. -/
theorem C10_squeeze (extents : List (ℚ × ℚ)) (hd : 1 ≤ extents.length) :
    ∃ ps, sample extents 1 "uniform" = Except.ok ps ∧ ps.length = 1 ∧
      sample_result_shape extents.length 1 =
        (if extents.length = 1 then ([] : List ℕ) else [extents.length]) := by
  have hm : numPerDim 1 extents.length = 1 := numPerDim_one extents.length hd
  have hsample : sample extents 1 "uniform" = Except.ok (cartesianProduct
      (extents.map (fun pr => linspace pr.1 pr.2 (numPerDim 1 extents.length)))) := by
    unfold sample
    rw [if_neg (by simp), if_neg (by omega)]
  refine ⟨_, hsample, ?_, ?_⟩
  · rw [cartesianProduct_length, List.map_map]
    rw [show (List.length ∘ fun pr : ℚ × ℚ => linspace pr.1 pr.2 (numPerDim 1 extents.length))
        = fun _ => numPerDim 1 extents.length from funext fun pr => linspace_length _ _ _]
    rw [List.map_const', List.prod_replicate, hm, one_pow]
  · unfold sample_result_shape squeezeShape
    rw [hm, one_pow]
    by_cases h1 : extents.length = 1
    · rw [if_pos h1, h1]
      rfl
    · rw [if_neg h1]
      simp [h1]

/-- Witness for C10_squeeze: two dimensions, one requested sample. -/
theorem C10_witness :
    ∃ ps, sample [((0 : ℚ), 1), (2, 3)] 1 "uniform" = Except.ok ps ∧ ps.length = 1 ∧
      sample_result_shape [((0 : ℚ), 1), (2, 3)].length 1 =
        (if [((0 : ℚ), 1), (2, 3)].length = 1 then ([] : List ℕ)
          else [[((0 : ℚ), 1), (2, 3)].length]) :=
  C10_squeeze [((0 : ℚ), 1), (2, 3)] (by decide)

/-! ## Claim C1 -/

/-- Claim C1, as stated, is false: `reduce` computes the reduced coefficients as
plain Euclidean dot products of the flattened velocity fields with the basis
rows (line 114), not as inner products under the Cauchy-Navier product operator
that was passed to `pod`.  Concrete instance: one snapshot `[1]`, one basis
vector `[1]`, product operator `[[2]]` (any non-identity operator works): the
code yields coefficient `1`, the claimed projection yields `2`. -/
theorem C1_counterexample :
    reduced_coefficients [[(1 : ℚ)]] [[1]] ≠
      cauchyNavierProjection [[(1 : ℚ)]] [[1]] [[2]] := by
  simp [reduced_coefficients, cauchyNavierProjection, matVec, dot]

/-- Claim C1 (amended): in `NonlinearNeuralNetworkReductor.reduce`, the reduced
coefficient `coefficients[i][j]` is the plain Euclidean (identity product) dot
product of flattened velocity field `i` with basis vector `j`; equivalently,
the projection agrees with the inner-product projection exactly when the
product operator is the identity, the Cauchy-Navier operator passed to `pod`
not being used in this step. -/
theorem C1_amended (snaps basis : List (List ℚ)) (n : ℕ)
    (hb : ∀ b ∈ basis, b.length = n) :
    reduced_coefficients snaps basis =
      cauchyNavierProjection snaps basis (identityMatrix n) := by
  unfold reduced_coefficients cauchyNavierProjection
  apply List.map_congr_left
  intro v _
  apply List.map_congr_left
  intro b hbmem
  rw [← hb b hbmem, matVec_identity]

/-- Witness for C1_amended at a concrete snapshot/basis of vector length 2. -/
theorem C1_witness :
    reduced_coefficients [[(1 : ℚ), 2]] [[3, 4]] =
      cauchyNavierProjection [[(1 : ℚ), 2]] [[3, 4]] (identityMatrix 2) :=
  C1_amended [[(1 : ℚ), 2]] [[3, 4]] 2 (by decide)

/-! ## Claim C2 -/

/-- Claim C2, as stated, is false: `multiple_restarts_training` has no handler
around `train_neural_network`, so a diverging (raising) restart aborts the
whole call even though a later successful restart (loss `3`) exists; nothing
is excluded and no best-of-successful is returned. -/
theorem C2_counterexample :
    multiple_restarts_training
        [Except.ok ((1 : ℕ), (5 : ℚ)), Except.error "diverged", Except.ok (2, 3)] =
      Except.error "diverged" ∧
    (multiple_restarts_training
        [Except.ok ((1 : ℕ), (5 : ℚ)), Except.error "diverged", Except.ok (2, 3)]).isOk
      = false := by
  constructor
  · rfl
  · rfl

/-- Claim C2 (amended): if any restart's training raises, the exception
propagates and aborts `multiple_restarts_training` (no restart is excluded);
when every restart succeeds, the call returns a network whose validation loss
is minimal among all restarts. -/
theorem C2_amended {N : Type} :
    (∀ (pre : List (N × ℚ)) (e : String) (rest : List (Except String (N × ℚ))),
      multiple_restarts_training (pre.map Except.ok ++ Except.error e :: rest) =
        Except.error e) ∧
    (∀ (p₀ : N × ℚ) (rest : List (N × ℚ)),
      ∃ n l, multiple_restarts_training ((p₀ :: rest).map Except.ok) =
          Except.ok (some n, some l) ∧
        (n, l) ∈ p₀ :: rest ∧ ∀ q ∈ p₀ :: rest, l ≤ q.2) := by
  constructor
  · intro pre e rest
    exact restartsLoop_error e pre rest none none
  · intro p₀ rest
    rcases p₀ with ⟨n₀, l₀⟩
    obtain ⟨n, l, heq, hmem, hle, hall⟩ := restartsLoop_ok_spec rest n₀ l₀
    refine ⟨n, l, heq, hmem, ?_⟩
    intro q hq
    rcases List.mem_cons.mp hq with h | h
    · rw [h]
      exact hle
    · exact hall q h

/-- Witness for C2_amended: two successful restarts with losses 5 and 3. -/
theorem C2_witness :
    ∃ n l, multiple_restarts_training ((((1 : ℕ), (5 : ℚ)) :: [(2, 3)]).map Except.ok) =
        Except.ok (some n, some l) ∧
      (n, l) ∈ ((1 : ℕ), (5 : ℚ)) :: [(2, 3)] ∧
      ∀ q ∈ ((1 : ℕ), (5 : ℚ)) :: [(2, 3)], l ≤ q.2 :=
  (@C2_amended ℕ).2 (1, 5) [(2, 3)]

/-! ## Claim C5 -/

/-- Claim C5, as stated, is false for a training-data list of length 1: the
validation set is the whole list, the training set is empty, and no element at
all (rather than exactly one) belongs to neither set. -/
theorem C5_counterexample :
    validation_split [(0 : ℚ)] = [0] ∧ training_split [(0 : ℚ)] = [] ∧
      ¬ ((validation_split [(0 : ℚ)]).length + (training_split [(0 : ℚ)]).length + 1 =
        [(0 : ℚ)].length) := by
  decide

/-- Claim C5 (amended): for every shuffled list of `n ≥ 2` training pairs the
validation set is exactly the first `n / 10 + 1` elements, the training set is
exactly the elements from index `n / 10 + 2` onward, and exactly one element,
the one at index `n / 10 + 1`, belongs to neither set. -/
theorem C5_amended {α : Type} (l : List α) (h : 2 ≤ l.length) :
    ∃ hk : l.length / 10 + 1 < l.length,
      validation_split l ++ l.get ⟨l.length / 10 + 1, hk⟩ :: training_split l = l := by
  have hk : l.length / 10 + 1 < l.length := by omega
  refine ⟨hk, ?_⟩
  unfold validation_split training_split
  rw [show l.length / 10 + 2 = l.length / 10 + 1 + 1 by omega, List.get_eq_getElem]
  have hconcat := List.take_concat_get' l (l.length / 10 + 1) hk
  calc List.take (l.length / 10 + 1) l ++
        l[l.length / 10 + 1] :: List.drop (l.length / 10 + 1 + 1) l
      = (List.take (l.length / 10 + 1) l ++ [l[l.length / 10 + 1]]) ++
          List.drop (l.length / 10 + 1 + 1) l := by simp
    _ = List.take (l.length / 10 + 1 + 1) l ++ List.drop (l.length / 10 + 1 + 1) l := by
        rw [hconcat]
    _ = l := List.take_append_drop _ l

/-- Witness for C5_amended on a list of length 2. -/
theorem C5_witness :
    ∃ hk : [(1 : ℕ), 2].length / 10 + 1 < [(1 : ℕ), 2].length,
      validation_split [(1 : ℕ), 2] ++
        [(1 : ℕ), 2].get ⟨[(1 : ℕ), 2].length / 10 + 1, hk⟩ ::
          training_split [(1 : ℕ), 2] = [(1 : ℕ), 2] :=
  C5_amended [(1 : ℕ), 2] (by decide)

/-! ## Claim C3 -/

/-- Claim C3: in `register_full_solutions` (no cache file), the initial guess
passed to the `k`-th registration is the velocity field produced by
registration `k-1` exactly when `num_workers = 1`, `reuse_vector_fields` is
true and `k ≥ 1`; in every other case (first sequential registration, reuse
disabled, or `num_workers > 1`, where requesting reuse only logs a warning) no
initial guess (`none`) is supplied. -/
theorem C3_initial_guess {V α : Type} (reg : Option V → α → V) (sols : List α)
    (numWorkers : ℕ) (reuse : Bool) (hw : 1 ≤ numWorkers) :
    (register_full_solutions reg numWorkers reuse sols).length = sols.length ∧
    ∀ k (hk : k < sols.length),
      (register_full_solutions reg numWorkers reuse sols)[k]? =
        some (reg (if numWorkers = 1 ∧ reuse = true ∧ 1 ≤ k
            then (register_full_solutions reg numWorkers reuse sols)[k - 1]?
            else none)
          (sols.get ⟨k, hk⟩)) := by
  constructor
  · unfold register_full_solutions
    split
    · simp
    · cases reuse with
      | false => rw [seqRegister_false]; simp
      | true => rw [seqRegister_true]; simp [warmStartChain_length]
  · intro k hk
    unfold register_full_solutions
    split
    · rename_i h1
      have hne : ¬ (numWorkers = 1 ∧ reuse = true ∧ 1 ≤ k) := by
        rintro ⟨h, -, -⟩
        omega
      rw [if_neg hne, List.getElem?_map, List.getElem?_eq_getElem hk]
      simp
    · rename_i h1
      have hnw : numWorkers = 1 := by omega
      subst hnw
      cases reuse with
      | false =>
        rw [if_neg (by simp), seqRegister_false, List.nil_append,
          List.getElem?_map, List.getElem?_eq_getElem hk]
        simp
      | true =>
        rw [seqRegister_true, List.nil_append]
        have hlast : ([] : List V).getLast? = none := rfl
        rw [hlast, warmStartChain_getElem reg sols none k, List.getElem?_eq_getElem hk]
        simp only [Option.map_some']
        by_cases hk0 : k = 0
        · subst hk0
          simp
        · have hk1 : 1 ≤ k := by omega
          simp [hk0, hk1]

/-- Witness for C3_initial_guess: two sequential warm-started registrations,
where the second registration's initial guess is the first one's result. -/
theorem C3_witness :
    (register_full_solutions (fun (o : Option ℕ) (a : ℕ) => a + 10 * o.getD 0)
      1 true [1, 2])[1]? = some 12 := by
  have h := (C3_initial_guess (fun (o : Option ℕ) (a : ℕ) => a + 10 * o.getD 0)
    [1, 2] 1 true (by decide)).2 1 (by decide)
  rw [h]
  rfl

/-! ## Claim C8 -/

/-- Claim C8: configuration errors fail fast before any expensive computation:
`sample` errors for an unsupported mode or `num_samples < 1` without computing
any points (the result is the same error whatever the extents are), and
`reduce` errors for a non-positive `max_basis_size` or `restarts` without
consulting the full-order solver, the registration oracle or `pod` (the result
is the same error whatever those oracles and the training set are). -/
theorem C8_fail_fast :
    (∀ (ext1 ext2 : List (ℚ × ℚ)) (n : ℕ) (mode : String),
      mode ≠ "uniform" ∨ n < 1 →
        sample ext1 n mode = sample ext2 n mode ∧
        (sample ext1 n mode).isOk = false) ∧
    (∀ (S1 V1 S2 V2 : Type) (solve1 : ℚ → S1) (reg1 : Option V1 → ℚ × S1 → V1)
        (pod1 : List V1 → ℕ → List (List ℚ)) (flat1 : V1 → List ℚ)
        (solve2 : ℚ → S2) (reg2 : Option V2 → ℚ × S2 → V2)
        (pod2 : List V2 → ℕ → List (List ℚ)) (flat2 : V2 → List ℚ)
        (ts1 ts2 : List ℚ) (m r : ℤ) (nw1 nw2 : ℕ) (ru1 ru2 : Bool),
      ¬ 0 < m ∨ ¬ 0 < r →
        reduce solve1 reg1 pod1 flat1 ts1 m r nw1 ru1 =
          reduce solve2 reg2 pod2 flat2 ts2 m r nw2 ru2 ∧
        (reduce solve1 reg1 pod1 flat1 ts1 m r nw1 ru1).isOk = false) := by
  constructor
  · intro ext1 ext2 n mode h
    by_cases hm : mode ∈ ["uniform"]
    · have hmode : mode = "uniform" := by simpa using hm
      have hn : n < 1 := by
        rcases h with h | h
        · exact absurd hmode h
        · exact h
      unfold sample
      rw [if_neg (not_not_intro hm), if_neg (not_not_intro hm), if_pos hn, if_pos hn]
      exact ⟨rfl, rfl⟩
    · unfold sample
      rw [if_pos hm, if_pos hm]
      exact ⟨rfl, rfl⟩
  · intro S1 V1 S2 V2 solve1 reg1 pod1 flat1 solve2 reg2 pod2 flat2
      ts1 ts2 m r nw1 nw2 ru1 ru2 h
    by_cases hm0 : 0 < m
    · have hr0 : ¬ 0 < r := by
        rcases h with h | h
        · exact absurd hm0 h
        · exact h
      unfold reduce
      rw [if_neg (not_not_intro hm0), if_neg (not_not_intro hm0), if_pos hr0, if_pos hr0]
      exact ⟨rfl, rfl⟩
    · unfold reduce
      rw [if_pos hm0, if_pos hm0]
      exact ⟨rfl, rfl⟩

/-- Witness for C8_fail_fast: `num_samples = 0` and `max_basis_size = 0`. -/
theorem C8_witness :
    (sample [((0 : ℚ), 1)] 0 "uniform" = sample [((5 : ℚ), 6), (7, 8)] 0 "uniform" ∧
      (sample [((0 : ℚ), 1)] 0 "uniform").isOk = false) ∧
    (reduce (fun _ => (0 : ℚ)) (fun _ _ => (0 : ℚ)) (fun _ _ => []) (fun _ => [])
        [1] 0 5 1 true =
      reduce (fun _ => true) (fun _ _ => false) (fun _ _ => []) (fun _ => [])
        [] 0 5 4 false ∧
      (reduce (fun _ => (0 : ℚ)) (fun _ _ => (0 : ℚ)) (fun _ _ => []) (fun _ => [])
        [1] 0 5 1 true).isOk = false) :=
  ⟨C8_fail_fast.1 [((0 : ℚ), 1)] [((5 : ℚ), 6), (7, 8)] 0 "uniform" (Or.inr (by decide)),
   C8_fail_fast.2 ℚ ℚ Bool Bool (fun _ => (0 : ℚ)) (fun _ _ => (0 : ℚ))
     (fun _ _ => []) (fun _ => []) (fun _ => true) (fun _ _ => false)
     (fun _ _ => []) (fun _ => []) [1] [] 0 5 1 4 true false (Or.inl (by decide))⟩

/-! ## Claim C9 -/

/-- Claim C9: in `reduce`, the network's input layer has width exactly 1
(`layers_sizes = [1] + hidden_layers + [output_dim]`) and every training input
is the one-element tensor `[mu]`, whatever the parameter type is. -/
theorem C9_scalar_input {P S : Type} (full_solutions : List (P × S))
    (coeffs : List (List ℚ)) (hidden_layers : List ℕ) (output_dim : ℕ) :
    (layers_sizes hidden_layers output_dim).head? = some 1 ∧
    ∀ pair ∈ build_training_data full_solutions coeffs, pair.1.length = 1 := by
  constructor
  · rfl
  · intro pair hp
    rcases List.mem_map.mp hp with ⟨pc, -, rfl⟩
    rfl

/-- Witness for C9_scalar_input at a concrete training pair. -/
theorem C9_witness :
    (layers_sizes [20, 20, 20] 1).head? = some 1 ∧ ([(2 : ℚ)], [(3 : ℚ)]).1.length = 1 :=
  ⟨(C9_scalar_input [((2 : ℚ), (0 : ℚ))] [[3]] [20, 20, 20] 1).1,
   (C9_scalar_input [((2 : ℚ), (0 : ℚ))] [[3]] [20, 20, 20] 1).2 ([2], [3]) (by decide)⟩

/-! ## Claim C6 -/

/-- Claim C6: after `compute_normalization` has produced stats with
`max_output ≠ min_output`, `denormalize_output` is the exact inverse of
`normalize_output`: `denormalize_output (normalize_output x) = x` for every
`x` (exact in ℚ; the claim allows floating-point tolerance). -/
theorem C6_roundtrip (td vd : List (ℚ × List ℚ)) (s : NormalizationStats)
    (_hs : compute_normalization td vd = some s)
    (h : s.max_output ≠ s.min_output) (x : ℚ) :
    denormalize_output s (normalize_output s x) = x := by
  unfold normalize_output denormalize_output
  have hne : s.max_output - s.min_output ≠ 0 := sub_ne_zero_of_ne h
  field_simp

/-- Witness for C6_roundtrip with stats computed from two training pairs. -/
theorem C6_witness :
    denormalize_output ⟨0, 1, 0, 1⟩ (normalize_output ⟨0, 1, 0, 1⟩ (1 / 3)) = 1 / 3 :=
  C6_roundtrip [((0 : ℚ), [(0 : ℚ)]), (1, [1])] [] ⟨0, 1, 0, 1⟩ (by decide) (by decide) (1 / 3)

end NonlinearMor
